import Mathlib

/-!
# Verification of the learn-wgpu scene core (camera math and tangent-space builder)

Shallow embedding of `src/wgpu-scene/src/camera.rs` and
`src/wgpu-scene/src/resources.rs`.

* The tangent-space builder works on `f32` values; we model `f32` as exact
  rationals extended with the IEEE-754 special values `inf`, `-inf` and `NaN`
  (type `F` below).  Finite arithmetic is exact (no rounding), while the
  special-value propagation rules (`1/0 = inf`, `0 * inf = NaN`, ...)
  follow IEEE-754, because several spec sentences are about exactly those
  rules.  We use a single unsigned zero.
* The camera works with trigonometric functions; we model its `f32` fields
  as real numbers.
-/

/-- `f32` scalars for the mesh pipeline: exact rationals plus the IEEE-754
special values (one unsigned zero). -/
inductive F where
  | fin : ℚ → F
  | inf : F
  | ninf : F
  | nan : F
deriving DecidableEq, Inhabited

namespace F

/-- IEEE-754 addition (exact on finite values). -/
def add : F → F → F
  | fin a, fin b => fin (a + b)
  | fin _, inf => inf
  | inf, fin _ => inf
  | inf, inf => inf
  | fin _, ninf => ninf
  | ninf, fin _ => ninf
  | ninf, ninf => ninf
  | inf, ninf => nan
  | ninf, inf => nan
  | nan, _ => nan
  | _, nan => nan

/-- IEEE-754 negation. -/
def neg : F → F
  | fin a => fin (-a)
  | inf => ninf
  | ninf => inf
  | nan => nan

/-- IEEE-754 subtraction. -/
def sub (a b : F) : F := a.add b.neg

/-- IEEE-754 multiplication (exact on finite values); `0 * inf = NaN`. -/
def mul : F → F → F
  | fin a, fin b => fin (a * b)
  | fin a, inf => if 0 < a then inf else if a < 0 then ninf else nan
  | inf, fin b => if 0 < b then inf else if b < 0 then ninf else nan
  | fin a, ninf => if 0 < a then ninf else if a < 0 then inf else nan
  | ninf, fin b => if 0 < b then ninf else if b < 0 then inf else nan
  | inf, inf => inf
  | inf, ninf => ninf
  | ninf, inf => ninf
  | ninf, ninf => inf
  | nan, _ => nan
  | _, nan => nan

/-- IEEE-754 division (exact on finite values); a nonzero finite value divided
by zero is a signed infinity, `0/0 = NaN`. -/
def div : F → F → F
  | fin a, fin b =>
      if b = 0 then (if a = 0 then nan else if 0 < a then inf else ninf)
      else fin (a / b)
  | fin _, inf => fin 0
  | fin _, ninf => fin 0
  | inf, fin b => if 0 ≤ b then inf else ninf
  | ninf, fin b => if 0 ≤ b then ninf else inf
  | inf, inf => nan
  | inf, ninf => nan
  | ninf, inf => nan
  | ninf, ninf => nan
  | nan, _ => nan
  | _, nan => nan

end F

/-- `cgmath::Vector2<f32>`. -/
structure Vec2F where
  x : F
  y : F
deriving DecidableEq, Inhabited

/-- Componentwise subtraction of `cgmath::Vector2<f32>`. -/
def Vec2F.sub (v w : Vec2F) : Vec2F := ⟨v.x.sub w.x, v.y.sub w.y⟩

/-- `cgmath::Vector3<f32>`. -/
structure Vec3F where
  x : F
  y : F
  z : F
deriving DecidableEq, Inhabited

namespace Vec3F

/-- The zero vector (`[0.0; 3]`). -/
def zero : Vec3F := ⟨.fin 0, .fin 0, .fin 0⟩

/-- Componentwise addition of `cgmath::Vector3<f32>`. -/
def add (v w : Vec3F) : Vec3F := ⟨v.x.add w.x, v.y.add w.y, v.z.add w.z⟩

/-- Componentwise subtraction of `cgmath::Vector3<f32>`. -/
def sub (v w : Vec3F) : Vec3F := ⟨v.x.sub w.x, v.y.sub w.y, v.z.sub w.z⟩

/-- `cgmath` vector-times-scalar product. -/
def smul (v : Vec3F) (s : F) : Vec3F := ⟨v.x.mul s, v.y.mul s, v.z.mul s⟩

/-- Componentwise division by a natural number (cast to `f32`), used to state
the averaging property. -/
def divNat (v : Vec3F) (n : ℕ) : Vec3F :=
  ⟨v.x.div (.fin n), v.y.div (.fin n), v.z.div (.fin n)⟩

end Vec3F

/-- `model::ModelVertex` as constructed in `load_model`. -/
structure ModelVertex where
  position : Vec3F
  tex_coords : Vec2F
  normal : Vec3F
  tangent : Vec3F
  bitangent : Vec3F
deriving DecidableEq, Inhabited

/-- The vertex construction of `load_model` (resources.rs lines 127-143): one
vertex per position triple, with `tangent` and `bitangent` zeroed. -/
def mkVertices (positions texcoords normals : List F) : List ModelVertex :=
  (List.range (positions.length / 3)).map fun i =>
    { position := ⟨positions.getD (i * 3) (.fin 0), positions.getD (i * 3 + 1) (.fin 0),
        positions.getD (i * 3 + 2) (.fin 0)⟩
      tex_coords := ⟨texcoords.getD (i * 2) (.fin 0), texcoords.getD (i * 2 + 1) (.fin 0)⟩
      normal := ⟨normals.getD (i * 3) (.fin 0), normals.getD (i * 3 + 1) (.fin 0),
        normals.getD (i * 3 + 2) (.fin 0)⟩
      tangent := Vec3F.zero
      bitangent := Vec3F.zero }

/-- The per-triangle tangent/bitangent computation of `load_model`
(resources.rs lines 153-169), translated verbatim:
`r = 1.0 / (delta_uv1.x * delta_uv2.y - delta_uv1.y * delta_uv2.x)`,
`tangent = (delta_pos1 * delta_uv2.y - delta_pos2 * delta_uv1.y) * r`,
`bitangent = (delta_pos2 * delta_uv2.x - delta_pos1 * delta_uv2.x) * -r`. -/
def triContribution (pos0 pos1 pos2 : Vec3F) (uv0 uv1 uv2 : Vec2F) : Vec3F × Vec3F :=
  let delta_pos1 := pos1.sub pos0
  let delta_pos2 := pos2.sub pos0
  let delta_uv1 := uv1.sub uv0
  let delta_uv2 := uv2.sub uv0
  let r := F.div (.fin 1) ((delta_uv1.x.mul delta_uv2.y).sub (delta_uv1.y.mul delta_uv2.x))
  let tangent := ((delta_pos1.smul delta_uv2.y).sub (delta_pos2.smul delta_uv1.y)).smul r
  let bitangent := ((delta_pos2.smul delta_uv2.x).sub (delta_pos1.smul delta_uv2.x)).smul r.neg
  (tangent, bitangent)

/-- The contribution of one index triple, reading positions and texture
coordinates from the current vertex list (as the loop reads `vertices[chunk[k]]`
at its top; out-of-range reads stand for the loop's panic and never occur in
the verified statements). -/
def contribOf (verts : List ModelVertex) (t : ℕ × ℕ × ℕ) : Vec3F × Vec3F :=
  let v0 := verts.getD t.1 default
  let v1 := verts.getD t.2.1 default
  let v2 := verts.getD t.2.2 default
  triContribution v0.position v1.position v2.position v0.tex_coords v1.tex_coords v2.tex_coords

/-- `vertices[i].tangent = (tangent + Vector3::from(vertices[i].tangent)).into()`. -/
def addTangentAt (verts : List ModelVertex) (i : ℕ) (t : Vec3F) : List ModelVertex :=
  match verts.get? i with
  | some v => verts.set i { v with tangent := t.add v.tangent }
  | none => verts

/-- `vertices[i].bitangent = (bitangent + Vector3::from(vertices[i].bitangent)).into()`. -/
def addBitangentAt (verts : List ModelVertex) (i : ℕ) (b : Vec3F) : List ModelVertex :=
  match verts.get? i with
  | some v => verts.set i { v with bitangent := b.add v.bitangent }
  | none => verts

/-- `triangles_included[i] += 1`. -/
def bumpCount (counts : List ℕ) (i : ℕ) : List ℕ :=
  counts.set i (counts.getD i 0 + 1)

/-- One iteration of the `for chunk in indices.chunks(3)` loop of `load_model`
(resources.rs lines 148-190): accumulate the triangle's tangent and bitangent
into its three vertices and bump their triangle counts. -/
def processTriangle (st : List ModelVertex × List ℕ) (tri : ℕ × ℕ × ℕ) :
    List ModelVertex × List ℕ :=
  let verts := st.1
  let counts := st.2
  let tb := contribOf verts tri
  let verts := addTangentAt verts tri.1 tb.1
  let verts := addTangentAt verts tri.2.1 tb.1
  let verts := addTangentAt verts tri.2.2 tb.1
  let verts := addBitangentAt verts tri.1 tb.2
  let verts := addBitangentAt verts tri.2.1 tb.2
  let verts := addBitangentAt verts tri.2.2 tb.2
  let counts := bumpCount counts tri.1
  let counts := bumpCount counts tri.2.1
  let counts := bumpCount counts tri.2.2
  (verts, counts)

/-- `let denominator = 1.0 / n as f32;` applied to one vertex
(resources.rs lines 192-197); the division happens for every vertex, with no
guard on `n = 0`. -/
def divideVertex (v : ModelVertex) (n : ℕ) : ModelVertex :=
  let denominator := F.div (.fin 1) (.fin n)
  { v with tangent := v.tangent.smul denominator,
           bitangent := v.bitangent.smul denominator }

/-- One iteration of the division loop: update `vertices[i]` from the count
`n`, given the enumerated pair `(i, n)`. -/
def divideStepF (vs : List ModelVertex) (p : ℕ × ℕ) : List ModelVertex :=
  match vs.get? p.1 with
  | some v => vs.set p.1 (divideVertex v p.2)
  | none => vs

/-- The final `for (i, n) in triangles_included.into_iter().enumerate()` loop
of `load_model` (resources.rs lines 192-197). -/
def divideStep (verts : List ModelVertex) (counts : List ℕ) : List ModelVertex :=
  counts.enum.foldl divideStepF verts

/-- The whole tangent-space builder of `load_model`: the accumulation loop over
all triangles followed by the per-vertex division, with
`triangles_included = vec![0; vertices.len()]`. -/
def computeTangents (verts : List ModelVertex) (tris : List (ℕ × ℕ × ℕ)) :
    List ModelVertex :=
  let st := tris.foldl processTriangle (verts, List.replicate verts.length 0)
  divideStep st.1 st.2

/-- `indices.chunks(3)` on a triangle list (an incomplete trailing chunk would
make the loop body panic on `chunk[1]`; the claims quantify over triangle
triples). -/
def chunks3 : List ℕ → List (ℕ × ℕ × ℕ)
  | a :: b :: c :: rest => (a, b, c) :: chunks3 rest
  | _ => []

/-- How many of the three corners of triangle `t` are vertex `i`. -/
def occInTri (i : ℕ) (t : ℕ × ℕ × ℕ) : ℕ :=
  (if t.1 = i then 1 else 0) + (if t.2.1 = i then 1 else 0) + (if t.2.2 = i then 1 else 0)

/-- How many triangle corners reference vertex `i` over the whole list: the
final value of `triangles_included[i]`. -/
def occCount (tris : List (ℕ × ℕ × ℕ)) (i : ℕ) : ℕ :=
  (tris.map (occInTri i)).sum

/-- The tangent contributions accumulated into vertex `i`, in processing order,
one copy per corner of each triangle referencing `i`. -/
def tContribs (verts : List ModelVertex) (tris : List (ℕ × ℕ × ℕ)) (i : ℕ) : List Vec3F :=
  (tris.map fun t => List.replicate (occInTri i t) (contribOf verts t).1).flatten

/-- The bitangent contributions accumulated into vertex `i`. -/
def bContribs (verts : List ModelVertex) (tris : List (ℕ × ℕ × ℕ)) (i : ℕ) : List Vec3F :=
  (tris.map fun t => List.replicate (occInTri i t) (contribOf verts t).2).flatten

/-- The sum of a list of vectors, folded the way the accumulation loop folds
(each new contribution is added on the left of the accumulator). -/
def sumVec (l : List Vec3F) : Vec3F := l.foldl (fun acc c => c.add acc) Vec3F.zero

/-- The tangent of vertex `i`. -/
def tangentAt (verts : List ModelVertex) (i : ℕ) : Vec3F := (verts.getD i default).tangent

/-- The bitangent of vertex `i`. -/
def bitangentAt (verts : List ModelVertex) (i : ℕ) : Vec3F := (verts.getD i default).bitangent

/-- Modelled from the spec claim C7's words: `r = 1 / (d1.u * d2.v - d1.v * d2.u)`
with no epsilon or zero-determinant guard, `tangent = (e1*d2.v - e2*d1.v) * r`,
`bitangent = (e2*d2.u - e1*d2.u) * -r` (the bitangent reusing the `d2.u` term in
both products), to be compared with `triContribution`. -/
def specTangentFormula (e1 e2 : Vec3F) (d1 d2 : Vec2F) : Vec3F × Vec3F :=
  let r := F.div (.fin 1) ((d1.x.mul d2.y).sub (d1.y.mul d2.x))
  (((e1.smul d2.y).sub (e2.smul d1.y)).smul r,
   ((e2.smul d2.x).sub (e1.smul d2.x)).smul r.neg)

/-! ## The camera (camera.rs), over the reals -/

noncomputable section

/-- `f32::to_radians` / `cgmath::Deg` to `cgmath::Rad` conversion. -/
def toRadians (x : ℝ) : ℝ := x * (Real.pi / 180)

/-- `f32::clamp(self, lo, hi)`: `if self < lo { lo } else if self > hi { hi }
else { self }`. -/
def fclamp (x lo hi : ℝ) : ℝ := if x < lo then lo else if hi < x then hi else x

/-- `cgmath::Vector3<f32>` (and `Point3<f32>` positions) for the camera. -/
structure Vec3 where
  x : ℝ
  y : ℝ
  z : ℝ

namespace Vec3

/-- Componentwise addition (also `Point3 += Vector3`). -/
def add (v w : Vec3) : Vec3 := ⟨v.x + w.x, v.y + w.y, v.z + w.z⟩

/-- `cgmath` vector-times-scalar product. -/
def smul (v : Vec3) (s : ℝ) : Vec3 := ⟨v.x * s, v.y * s, v.z * s⟩

/-- `cgmath::dot`. -/
def dot (v w : Vec3) : ℝ := v.x * w.x + v.y * w.y + v.z * w.z

/-- `cgmath::Vector3::cross`. -/
def cross (v w : Vec3) : Vec3 :=
  ⟨v.y * w.z - v.z * w.y, v.z * w.x - v.x * w.z, v.x * w.y - v.y * w.x⟩

/-- `cgmath` magnitude. -/
def norm (v : Vec3) : ℝ := Real.sqrt (v.dot v)

/-- `cgmath::InnerSpace::normalize`: `self * (1 / magnitude)`. -/
def normalize (v : Vec3) : Vec3 := v.smul (1 / v.norm)

end Vec3

/-- `camera::Camera`. -/
structure Camera where
  position : Vec3
  aspect_ratio : ℝ
  fov_y : ℝ
  z_near : ℝ
  z_far : ℝ
  up : Vec3
  front : Vec3
  right : Vec3
  pitch : ℝ
  yaw : ℝ

namespace Camera

/-- `Camera::update_vectors` (camera.rs lines 66-75). -/
def update_vectors (c : Camera) : Camera :=
  let front := Vec3.normalize
    ⟨Real.cos c.pitch * Real.cos c.yaw, Real.sin c.pitch,
      -(Real.cos c.pitch * Real.sin c.yaw)⟩
  let up : Vec3 := ⟨0, 1, 0⟩
  { c with front := front, up := up, right := Vec3.normalize (front.cross up) }

/-- `Camera::new` (camera.rs lines 20-35). -/
def new (position : Vec3) (aspect_ratio : ℝ) : Camera :=
  update_vectors
    { position := position
      aspect_ratio := aspect_ratio
      fov_y := 45
      z_near := 0.001
      z_far := 10000
      up := ⟨1, 0, 0⟩
      front := ⟨0, 0, 1⟩
      right := ⟨0, 1, 0⟩
      pitch := 0
      yaw := toRadians (-45) }

/-- `Camera::increment_pitch` (camera.rs lines 49-55): add, clamp to
`[-89°.to_radians(), 89°.to_radians()]`, re-derive the vectors. -/
def increment_pitch (c : Camera) (delta_pitch : ℝ) : Camera :=
  update_vectors
    { c with pitch := fclamp (c.pitch + delta_pitch) (-(toRadians 89)) (toRadians 89) }

/-- `Camera::increment_yaw` (camera.rs lines 57-60): add (no clamp), re-derive
the vectors. -/
def increment_yaw (c : Camera) (delta_yaw : ℝ) : Camera :=
  update_vectors { c with yaw := c.yaw + delta_yaw }

/-- `Camera::set_fov_y` (camera.rs lines 62-64):
`self.fov_y = fov_y.clamp(1.0f32.to_radians(), 45.0f32.to_radians())`. -/
def set_fov_y (c : Camera) (fov_y : ℝ) : Camera :=
  { c with fov_y := fclamp fov_y (toRadians 1) (toRadians 45) }

/-- The angle, in radians, that `build_view_projection_matrix` hands to the
perspective projection: camera.rs line 40 wraps `self.fov_y` in `cgmath::Deg`,
so the stored value is consumed as degrees and converted by `cgmath`. -/
def fovyRadiansUsed (c : Camera) : ℝ := toRadians c.fov_y

end Camera

/-- `winit::event::DeviceEvent`, reduced to what `process_device_event`
distinguishes. -/
inductive DeviceEvent where
  | mouseMotion (dx dy : ℝ)
  | other

/-- `camera::CameraController`. -/
structure CameraController where
  move_speed : ℝ
  look_speed : ℝ
  is_forward_pressed : Bool
  is_backward_pressed : Bool
  is_left_pressed : Bool
  is_right_pressed : Bool
  is_down_pressed : Bool
  is_up_pressed : Bool
  cursor_move : Option (ℝ × ℝ)

namespace CameraController

/-- `CameraController::process_device_event` (camera.rs lines 175-186):
a mouse-motion event overwrites `cursor_move` with
`(-dx.to_radians() * look_speed, -dy.to_radians() * look_speed)` and is
consumed; any other event is not. -/
def process_device_event (s : CameraController) (e : DeviceEvent) :
    CameraController × Bool :=
  match e with
  | .mouseMotion dx dy =>
      let delta_yaw := -(toRadians dx) * s.look_speed
      let delta_pitch := -(toRadians dy) * s.look_speed
      ({ s with cursor_move := some (delta_yaw, delta_pitch) }, true)
  | .other => (s, false)

/-- `CameraController::update_camera` (camera.rs lines 188-212): apply each
held movement flag to the position, then consume any pending cursor delta via
`increment_yaw` followed by `increment_pitch`. -/
def update_camera (s : CameraController) (camera : Camera) :
    CameraController × Camera :=
  let camera := if s.is_forward_pressed then
    { camera with position := camera.position.add (camera.front.smul s.move_speed) } else camera
  let camera := if s.is_backward_pressed then
    { camera with position := camera.position.add (camera.front.smul (-s.move_speed)) } else camera
  let camera := if s.is_right_pressed then
    { camera with position := camera.position.add (camera.right.smul s.move_speed) } else camera
  let camera := if s.is_left_pressed then
    { camera with position := camera.position.add (camera.right.smul (-s.move_speed)) } else camera
  let camera := if s.is_down_pressed then
    { camera with position := camera.position.add (camera.up.smul (-s.move_speed)) } else camera
  let camera := if s.is_up_pressed then
    { camera with position := camera.position.add (camera.up.smul s.move_speed) } else camera
  match s.cursor_move with
  | some d => ({ s with cursor_move := none }, (camera.increment_yaw d.1).increment_pitch d.2)
  | none => (s, camera)

end CameraController

/-- A sequence of orientation updates applied to a camera. -/
inductive CamOp where
  | incPitch (δ : ℝ)
  | incYaw (δ : ℝ)

/-- Apply one orientation update. -/
def applyOp (c : Camera) : CamOp → Camera
  | .incPitch δ => c.increment_pitch δ
  | .incYaw δ => c.increment_yaw δ

/-- Apply a finite sequence of orientation updates in order. -/
def applyOps (c : Camera) (ops : List CamOp) : Camera := ops.foldl applyOp c

/-- The indicator used to state that held movement flags contribute
additively. -/
def flagInd (b : Bool) : ℝ := if b then 1 else 0

end

/-! ## The model loader (resources.rs), around the tangent builder

`load_model` is asynchronous I/O glue; we embed it over an explicit fetch
oracle (for `load_string`/`load_binary`, which either return the resource's
bytes or a fetch failure) and an explicit parse oracle standing for
`tobj::load_obj_buf_async` (which reports the companion material files it
requests through the async callback, the `obj_materials` result, and the mesh
groups).  Paths are component lists; `Path::parent().join(p)` drops the last
component and appends `p`.  The callback's `load_string(..).await.unwrap()`
(resources.rs line 101) aborts instead of returning, which the outcome type
records as `panicked`. -/

/-- A relative asset path, as its components. -/
abbrev AssetPath := List String

/-- `Path::parent().unwrap().join(p)` (resources.rs lines 100, 109, 112). -/
def parentJoin (file_name : AssetPath) (p : String) : AssetPath :=
  file_name.dropLast ++ [p]

/-- `texture::Texture`, kept abstract: the bytes it was built from and the
`is_normal_map` tag. -/
structure Texture where
  data : String
  is_normal_map : Bool
deriving DecidableEq

/-- A `tobj::Material` as consumed: its name and the two referenced texture
file names. -/
structure MtlMaterial where
  name : String
  diffuse_texture : String
  normal_texture : String
deriving DecidableEq

/-- `model::Material` as assembled by `Material::new`. -/
structure Material where
  name : String
  diffuse_texture : Texture
  normal_texture : Texture
deriving DecidableEq

/-- One `tobj::Model`'s mesh data as consumed by `load_model`. -/
structure MeshData where
  positions : List F
  texcoords : List F
  normals : List F
  indices : List ℕ
  material_id : Option ℕ
deriving DecidableEq

/-- `model::Mesh`: the GPU buffers are opaque, so the mesh keeps the vertex
and index sequences they were built from. -/
structure Mesh where
  name : String
  vertices : List ModelVertex
  indices : List ℕ
  num_elements : ℕ
  material : ℕ
deriving DecidableEq

/-- `model::Model`. -/
structure Model where
  meshes : List Mesh
  materials : List Material
deriving DecidableEq

/-- What `tobj::load_obj_buf_async` produces from the OBJ text: the companion
material files it requests via the callback (in order), the `obj_materials`
result, and the mesh groups. -/
structure ParsedObj where
  mtl_requests : List String
  materials : Except String (List MtlMaterial)
  models : List MeshData

/-- How a call to `load_model` ends: a model, an error returned to the caller,
or a panic (an `unwrap` on a failed fetch aborts instead of returning). -/
inductive LoadOutcome (α : Type) where
  | ok : α → LoadOutcome α
  | err : String → LoadOutcome α
  | panicked : LoadOutcome α
deriving DecidableEq

/-- Whether a fetch result is a failure. -/
def fetchFailed : Except String String → Bool
  | .error _ => true
  | .ok _ => false

/-- `resources::load_texture` (resources.rs lines 66-80): fetch the bytes,
then build the texture (texture decoding is an external collaborator, modelled
as always succeeding); a fetch failure is propagated with `?`. -/
def load_texture (fetch : AssetPath → Except String String) (file_name : AssetPath)
    (is_normal_map : Bool) : Except String Texture :=
  (fetch file_name).map fun data => { data := data, is_normal_map := is_normal_map }

/-- The material loop of `load_model` (resources.rs lines 107-122): for each
parsed material, load the diffuse then the normal texture (each `?` propagates
a failure) and push the assembled `Material`. -/
def loadMaterials (fetch : AssetPath → Except String String) (file_name : AssetPath) :
    List MtlMaterial → Except String (List Material)
  | [] => .ok []
  | m :: rest =>
    match load_texture fetch (parentJoin file_name m.diffuse_texture) false with
    | .error e => .error e
    | .ok diffuse_texture =>
      match load_texture fetch (parentJoin file_name m.normal_texture) true with
      | .error e => .error e
      | .ok normal_texture =>
        match loadMaterials fetch file_name rest with
        | .error e => .error e
        | .ok others =>
          .ok ({ name := m.name, diffuse_texture := diffuse_texture,
                 normal_texture := normal_texture } :: others)

/-- The mesh assembly of `load_model` (resources.rs lines 124-218): construct
the zero-tangent vertices, run the tangent builder over the index triples, and
record the buffers' contents. -/
def buildMesh (file_name : AssetPath) (m : MeshData) : Mesh :=
  let vertices := computeTangents (mkVertices m.positions m.texcoords m.normals)
    (chunks3 m.indices)
  { name := String.intercalate "/" file_name
    vertices := vertices
    indices := m.indices
    num_elements := m.indices.length
    material := m.material_id.getD 0 }

/-- `resources::load_model` (resources.rs lines 82-221).  The OBJ text is
fetched (`?` propagates a failure); parsing requests each companion material
file through the callback, whose `load_string(..).await.unwrap()` panics when
that fetch fails; `obj_materials?` propagates; the material loop propagates
texture fetch failures; only then is the complete `Model` returned. -/
def load_model (fetch : AssetPath → Except String String)
    (parse : String → Except String ParsedObj) (file_name : AssetPath) :
    LoadOutcome Model :=
  match fetch file_name with
  | .error e => .err e
  | .ok obj_text =>
    match parse obj_text with
    | .error e => .err e
    | .ok parsed =>
      if parsed.mtl_requests.any (fun p => fetchFailed (fetch (parentJoin file_name p))) then
        .panicked
      else
        match parsed.materials with
        | .error e => .err e
        | .ok obj_materials =>
          match loadMaterials fetch file_name obj_materials with
          | .error e => .err e
          | .ok materials =>
            .ok { meshes := parsed.models.map (buildMesh file_name), materials := materials }

/-- The first texture fetch failure hit by the material loop, scanning each
material's diffuse then normal texture in order. -/
def firstTexErr (fetch : AssetPath → Except String String) (file_name : AssetPath) :
    List MtlMaterial → Option String
  | [] => none
  | m :: rest =>
    match fetch (parentJoin file_name m.diffuse_texture) with
    | .error e => some e
    | .ok _ =>
      match fetch (parentJoin file_name m.normal_texture) with
      | .error e => some e
      | .ok _ => firstTexErr fetch file_name rest

/-- The concrete fetch oracle for the companion-material counterexample: the
OBJ file is present, everything else is missing. -/
def cexFetch : AssetPath → Except String String :=
  fun p => if p = ["cube.obj"] then .ok "obj text" else .error "fetch failed"

/-- The concrete parse oracle for the companion-material counterexample: the
OBJ references one companion material file. -/
def cexParse : String → Except String ParsedObj :=
  fun _ => .ok { mtl_requests := ["scene.mtl"], materials := .ok [], models := [] }

/-- A concrete parse oracle for the texture-failure witness: no companion
material files, one parsed material whose texture files are absent from
`cexFetch`. -/
def witParse : String → Except String ParsedObj :=
  fun _ => .ok { mtl_requests := []
                 materials := .ok [{ name := "mat", diffuse_texture := "d.png",
                                     normal_texture := "n.png" }]
                 models := [] }

/-! ## Helper lemmas: the derived camera frame -/

lemma Vec3_normalize_of_dot_one (v : Vec3) (h : v.dot v = 1) : v.normalize = v := by
  unfold Vec3.normalize Vec3.norm
  rw [h, Real.sqrt_one]
  cases v
  simp [Vec3.smul]

lemma raw_front_dot_one (p y : ℝ) :
    (Vec3.mk (Real.cos p * Real.cos y) (Real.sin p) (-(Real.cos p * Real.sin y))).dot
      (Vec3.mk (Real.cos p * Real.cos y) (Real.sin p) (-(Real.cos p * Real.sin y))) = 1 := by
  have h1 : Real.sin p ^ 2 + Real.cos p ^ 2 = 1 := Real.sin_sq_add_cos_sq p
  have h2 : Real.sin y ^ 2 + Real.cos y ^ 2 = 1 := Real.sin_sq_add_cos_sq y
  simp only [Vec3.dot]
  linear_combination Real.cos p ^ 2 * h2 + h1

lemma update_vectors_front (c : Camera) :
    c.update_vectors.front =
      Vec3.mk (Real.cos c.pitch * Real.cos c.yaw) (Real.sin c.pitch)
        (-(Real.cos c.pitch * Real.sin c.yaw)) := by
  simp only [Camera.update_vectors]
  exact Vec3_normalize_of_dot_one _ (raw_front_dot_one c.pitch c.yaw)

lemma update_vectors_up (c : Camera) : c.update_vectors.up = Vec3.mk 0 1 0 := rfl

lemma update_vectors_right (c : Camera) (h : 0 < Real.cos c.pitch) :
    c.update_vectors.right = Vec3.mk (Real.sin c.yaw) 0 (Real.cos c.yaw) := by
  have hraw := Vec3_normalize_of_dot_one _ (raw_front_dot_one c.pitch c.yaw)
  simp only [Camera.update_vectors, hraw]
  have hcross :
      (Vec3.mk (Real.cos c.pitch * Real.cos c.yaw) (Real.sin c.pitch)
        (-(Real.cos c.pitch * Real.sin c.yaw))).cross (Vec3.mk 0 1 0) =
      Vec3.mk (Real.cos c.pitch * Real.sin c.yaw) 0 (Real.cos c.pitch * Real.cos c.yaw) := by
    simp [Vec3.cross]
  rw [hcross]
  have hdot :
      (Vec3.mk (Real.cos c.pitch * Real.sin c.yaw) 0
        (Real.cos c.pitch * Real.cos c.yaw)).dot
      (Vec3.mk (Real.cos c.pitch * Real.sin c.yaw) 0
        (Real.cos c.pitch * Real.cos c.yaw)) = Real.cos c.pitch ^ 2 := by
    have h2 : Real.sin c.yaw ^ 2 + Real.cos c.yaw ^ 2 = 1 := Real.sin_sq_add_cos_sq c.yaw
    simp only [Vec3.dot]
    linear_combination Real.cos c.pitch ^ 2 * h2
  unfold Vec3.normalize Vec3.norm
  rw [hdot, Real.sqrt_sq h.le]
  have hne : Real.cos c.pitch ≠ 0 := ne_of_gt h
  simp only [Vec3.smul]
  congr 1
  · field_simp
  · simp
  · field_simp

lemma update_vectors_pitch (c : Camera) : c.update_vectors.pitch = c.pitch := rfl

lemma update_vectors_yaw (c : Camera) : c.update_vectors.yaw = c.yaw := rfl

lemma fclamp_mem (x lo hi : ℝ) (h : lo ≤ hi) : lo ≤ fclamp x lo hi ∧ fclamp x lo hi ≤ hi := by
  unfold fclamp
  split_ifs with h1 h2 <;> constructor <;> linarith

lemma toRadians_89_lt_pi_div_two : toRadians 89 < Real.pi / 2 := by
  unfold toRadians
  have := Real.pi_pos
  nlinarith

lemma toRadians_89_pos : 0 < toRadians 89 := by
  unfold toRadians
  have := Real.pi_pos
  nlinarith

lemma cos_pos_of_abs_le_bound (p : ℝ) (hlo : -(toRadians 89) ≤ p) (hhi : p ≤ toRadians 89) :
    0 < Real.cos p := by
  have hb := toRadians_89_lt_pi_div_two
  refine Real.cos_pos_of_mem_Ioo ⟨?_, ?_⟩ <;> nlinarith

lemma increment_pitch_pitch (c : Camera) (δ : ℝ) :
    (c.increment_pitch δ).pitch = fclamp (c.pitch + δ) (-(toRadians 89)) (toRadians 89) := rfl

lemma increment_pitch_yaw (c : Camera) (δ : ℝ) : (c.increment_pitch δ).yaw = c.yaw := rfl

lemma increment_yaw_pitch (c : Camera) (δ : ℝ) : (c.increment_yaw δ).pitch = c.pitch := rfl

lemma increment_yaw_yaw (c : Camera) (δ : ℝ) : (c.increment_yaw δ).yaw = c.yaw + δ := rfl

lemma increment_pitch_pitch_mem (c : Camera) (δ : ℝ) :
    -(toRadians 89) ≤ (c.increment_pitch δ).pitch ∧
      (c.increment_pitch δ).pitch ≤ toRadians 89 := by
  rw [increment_pitch_pitch]
  exact fclamp_mem _ _ _ (by have := toRadians_89_pos; linarith)

lemma new_pitch (position : Vec3) (aspect_ratio : ℝ) :
    (Camera.new position aspect_ratio).pitch = 0 := rfl

lemma applyOps_pitch_mem (ops : List CamOp) (c : Camera)
    (hlo : -(toRadians 89) ≤ c.pitch) (hhi : c.pitch ≤ toRadians 89) :
    -(toRadians 89) ≤ (applyOps c ops).pitch ∧ (applyOps c ops).pitch ≤ toRadians 89 := by
  induction ops generalizing c with
  | nil => exact ⟨hlo, hhi⟩
  | cons op rest ih =>
    have hstep : -(toRadians 89) ≤ (applyOp c op).pitch ∧ (applyOp c op).pitch ≤ toRadians 89 := by
      cases op with
      | incPitch δ => exact increment_pitch_pitch_mem c δ
      | incYaw δ =>
        show -(toRadians 89) ≤ (c.increment_yaw δ).pitch ∧ (c.increment_yaw δ).pitch ≤ toRadians 89
        rw [increment_yaw_pitch]
        exact ⟨hlo, hhi⟩
    have hfold : applyOps c (op :: rest) = applyOps (applyOp c op) rest := rfl
    rw [hfold]
    exact ih _ hstep.1 hstep.2

/-- C5: starting from a freshly constructed camera (pitch 0), after any finite
sequence of increment_pitch and increment_yaw calls the pitch lies in the
closed interval [-89°, 89°] expressed in radians, and yaw is never clamped:
increment_yaw adds its delta exactly and increment_pitch leaves yaw
unchanged. -/
theorem c5_pitch_clamped_yaw_unbounded :
    ∀ (position : Vec3) (aspect_ratio : ℝ) (ops : List CamOp),
      (-(toRadians 89) ≤ (applyOps (Camera.new position aspect_ratio) ops).pitch ∧
        (applyOps (Camera.new position aspect_ratio) ops).pitch ≤ toRadians 89) ∧
      (∀ (c : Camera) (δ : ℝ),
        (c.increment_yaw δ).yaw = c.yaw + δ ∧ (c.increment_pitch δ).yaw = c.yaw) := by
  intro position aspect_ratio ops
  constructor
  · apply applyOps_pitch_mem
    · rw [new_pitch]
      have := toRadians_89_pos
      linarith
    · rw [new_pitch]
      exact toRadians_89_pos.le
  · exact fun c δ => ⟨increment_yaw_yaw c δ, increment_pitch_yaw c δ⟩

/-- C3 (code bug): set_fov_y clamps with bounds already converted to radians
(camera.rs line 63) while build_view_projection_matrix consumes fov_y as
degrees (camera.rs line 40 wraps it in cgmath::Deg).  At input 30 (degrees,
inside the intended [1°, 45°] range) the stored field becomes 45·π/180 ≈ 0.785,
which is below the claimed lower bound of 1 degree, so the consumed field of
view leaves the configured 1-to-45-degree range instead of staying inside
it. -/
theorem c3_fov_clamp_unit_mismatch (c : Camera) :
    (c.set_fov_y 30).fov_y = 45 * (Real.pi / 180) ∧
    (c.set_fov_y 30).fov_y < 1 ∧
    (c.set_fov_y 30).fovyRadiansUsed < toRadians 1 := by
  have hpi4 : Real.pi < 3.15 := Real.pi_lt_d2
  have hpi0 : 0 < Real.pi := Real.pi_pos
  have hmain : (c.set_fov_y 30).fov_y = 45 * (Real.pi / 180) := by
    show fclamp 30 (toRadians 1) (toRadians 45) = 45 * (Real.pi / 180)
    unfold fclamp toRadians
    split_ifs with h1 h2
    · exfalso; nlinarith
    · rfl
    · exfalso; nlinarith
  refine ⟨hmain, ?_, ?_⟩
  · rw [hmain]; nlinarith
  · show toRadians (c.set_fov_y 30).fov_y < toRadians 1
    rw [hmain]
    unfold toRadians
    nlinarith

lemma frame_of_update_vectors (c : Camera) (h : 0 < Real.cos c.pitch) :
    c.update_vectors.front.norm = 1 ∧ c.update_vectors.right.norm = 1 ∧
    c.update_vectors.up.norm = 1 ∧
    c.update_vectors.front.dot c.update_vectors.right = 0 ∧
    c.update_vectors.right.dot c.update_vectors.up = 0 ∧
    c.update_vectors.front.dot c.update_vectors.up = Real.sin c.pitch := by
  rw [update_vectors_front, update_vectors_up, update_vectors_right c h]
  refine ⟨?_, ?_, ?_, ?_, ?_, ?_⟩
  · unfold Vec3.norm
    rw [raw_front_dot_one]
    exact Real.sqrt_one
  · unfold Vec3.norm
    have hd : (Vec3.mk (Real.sin c.yaw) 0 (Real.cos c.yaw)).dot
        (Vec3.mk (Real.sin c.yaw) 0 (Real.cos c.yaw)) = 1 := by
      simp only [Vec3.dot]
      linear_combination Real.sin_sq_add_cos_sq c.yaw
    rw [hd]
    exact Real.sqrt_one
  · unfold Vec3.norm
    have hd : (Vec3.mk (0 : ℝ) 1 0).dot (Vec3.mk 0 1 0) = 1 := by
      simp [Vec3.dot]
    rw [hd]
    exact Real.sqrt_one
  · simp only [Vec3.dot]; ring
  · simp only [Vec3.dot]; ring
  · simp only [Vec3.dot]; ring

lemma increment_pitch_eq (c : Camera) (δ : ℝ) :
    c.increment_pitch δ =
      Camera.update_vectors
        { c with pitch := fclamp (c.pitch + δ) (-(toRadians 89)) (toRadians 89) } := rfl

lemma increment_yaw_eq (c : Camera) (δ : ℝ) :
    c.increment_yaw δ = Camera.update_vectors { c with yaw := c.yaw + δ } := rfl

/-- C1 (amended): after any increment_pitch or increment_yaw call on a camera
whose pitch satisfies the clamp invariant, front, right and up are unit length,
and right is orthogonal to both front and up; but front·up equals
sin(pitch), not 0 — up is reset to the world-up axis (0,1,0) and is not
orthogonal to front whenever pitch ≠ 0. -/
theorem c1_frame_after_update (c : Camera) (δ : ℝ)
    (hlo : -(toRadians 89) ≤ c.pitch) (hhi : c.pitch ≤ toRadians 89) :
    ((c.increment_pitch δ).front.norm = 1 ∧ (c.increment_pitch δ).right.norm = 1 ∧
      (c.increment_pitch δ).up.norm = 1 ∧
      (c.increment_pitch δ).front.dot (c.increment_pitch δ).right = 0 ∧
      (c.increment_pitch δ).right.dot (c.increment_pitch δ).up = 0 ∧
      (c.increment_pitch δ).front.dot (c.increment_pitch δ).up =
        Real.sin (c.increment_pitch δ).pitch) ∧
    ((c.increment_yaw δ).front.norm = 1 ∧ (c.increment_yaw δ).right.norm = 1 ∧
      (c.increment_yaw δ).up.norm = 1 ∧
      (c.increment_yaw δ).front.dot (c.increment_yaw δ).right = 0 ∧
      (c.increment_yaw δ).right.dot (c.increment_yaw δ).up = 0 ∧
      (c.increment_yaw δ).front.dot (c.increment_yaw δ).up =
        Real.sin (c.increment_yaw δ).pitch) := by
  constructor
  · rw [increment_pitch_eq]
    have hmem := fclamp_mem (c.pitch + δ) (-(toRadians 89)) (toRadians 89)
      (by have := toRadians_89_pos; linarith)
    exact frame_of_update_vectors _ (cos_pos_of_abs_le_bound _ hmem.1 hmem.2)
  · rw [increment_yaw_eq]
    exact frame_of_update_vectors _ (cos_pos_of_abs_le_bound _ hlo hhi)

/-- Witness for C1's amended theorem at a concrete camera and delta. -/
theorem c1_frame_after_update_witness :
    ((Camera.new ⟨0, 0, 0⟩ 1).increment_pitch 1).front.norm = 1 ∧
    ((Camera.new ⟨0, 0, 0⟩ 1).increment_yaw 1).front.dot
      ((Camera.new ⟨0, 0, 0⟩ 1).increment_yaw 1).up =
      Real.sin ((Camera.new ⟨0, 0, 0⟩ 1).increment_yaw 1).pitch := by
  have hlo : -(toRadians 89) ≤ (Camera.new ⟨0, 0, 0⟩ 1).pitch := by
    rw [new_pitch]
    have := toRadians_89_pos
    linarith
  have hhi : (Camera.new ⟨0, 0, 0⟩ 1).pitch ≤ toRadians 89 := by
    rw [new_pitch]
    exact toRadians_89_pos.le
  exact ⟨(c1_frame_after_update (Camera.new ⟨0, 0, 0⟩ 1) 1 hlo hhi).1.1,
    (c1_frame_after_update (Camera.new ⟨0, 0, 0⟩ 1) 1 hlo hhi).2.2.2.2.2.2⟩

/-- Counterexample to C1 as stated: after incrementing pitch by 1/2 on a fresh
camera, front·up = sin(1/2) ≠ 0, so front and up are not orthogonal. -/
theorem c1_counterexample_front_up :
    ((Camera.new ⟨0, 0, 0⟩ 1).increment_pitch (1 / 2)).front.dot
      ((Camera.new ⟨0, 0, 0⟩ 1).increment_pitch (1 / 2)).up ≠ 0 := by
  have hpi3 : Real.pi > 3.141592 := Real.pi_gt_d6
  have hpi0 : 0 < Real.pi := Real.pi_pos
  have hp : ((Camera.new ⟨0, 0, 0⟩ 1).increment_pitch (1 / 2)).pitch = 1 / 2 := by
    rw [increment_pitch_pitch, new_pitch]
    unfold fclamp toRadians
    split_ifs with h1 h2
    · exfalso; nlinarith
    · exfalso; nlinarith
    · norm_num
  have hcos : 0 < Real.cos ((Camera.new ⟨0, 0, 0⟩ 1).increment_pitch (1 / 2)).pitch := by
    rw [hp]
    apply Real.cos_pos_of_mem_Ioo
    constructor <;> nlinarith
  have h6 : ((Camera.new ⟨0, 0, 0⟩ 1).increment_pitch (1 / 2)).front.dot
      ((Camera.new ⟨0, 0, 0⟩ 1).increment_pitch (1 / 2)).up =
      Real.sin ((Camera.new ⟨0, 0, 0⟩ 1).increment_pitch (1 / 2)).pitch := by
    rw [increment_pitch_eq] at hcos ⊢
    exact (frame_of_update_vectors _ hcos).2.2.2.2.2
  rw [h6, hp]
  exact ne_of_gt (Real.sin_pos_of_pos_of_lt_pi (by norm_num) (by nlinarith))

/-! ## Helper lemmas: the controller -/

lemma increment_pitch_aspect (c : Camera) (δ : ℝ) :
    (c.increment_pitch δ).aspect_ratio = c.aspect_ratio := rfl

lemma increment_pitch_fov (c : Camera) (δ : ℝ) : (c.increment_pitch δ).fov_y = c.fov_y := rfl

lemma increment_pitch_z_near (c : Camera) (δ : ℝ) : (c.increment_pitch δ).z_near = c.z_near := rfl

lemma increment_pitch_z_far (c : Camera) (δ : ℝ) : (c.increment_pitch δ).z_far = c.z_far := rfl

lemma increment_yaw_aspect (c : Camera) (δ : ℝ) :
    (c.increment_yaw δ).aspect_ratio = c.aspect_ratio := rfl

lemma increment_yaw_fov (c : Camera) (δ : ℝ) : (c.increment_yaw δ).fov_y = c.fov_y := rfl

lemma increment_yaw_z_near (c : Camera) (δ : ℝ) : (c.increment_yaw δ).z_near = c.z_near := rfl

lemma increment_yaw_z_far (c : Camera) (δ : ℝ) : (c.increment_yaw δ).z_far = c.z_far := rfl

/-- C8: a mouse-motion event stores (-dx.to_radians()*look_speed,
-dy.to_radians()*look_speed), overwriting any pending delta, so after two
motion events followed by one update_camera call the camera update equals the
one produced by the second event alone, and that call clears the pending
delta. -/
theorem c8_pointer_overwrite (s : CameraController) (c : Camera) (dx1 dy1 dx2 dy2 : ℝ) :
    ((s.process_device_event (.mouseMotion dx1 dy1)).1.process_device_event
        (.mouseMotion dx2 dy2)).1.cursor_move =
      some (-(toRadians dx2) * s.look_speed, -(toRadians dy2) * s.look_speed) ∧
    ((s.process_device_event (.mouseMotion dx1 dy1)).1.process_device_event
        (.mouseMotion dx2 dy2)).1.update_camera c =
      (s.process_device_event (.mouseMotion dx2 dy2)).1.update_camera c ∧
    (((s.process_device_event (.mouseMotion dx1 dy1)).1.process_device_event
        (.mouseMotion dx2 dy2)).1.update_camera c).1.cursor_move = none := by
  have key : ((s.process_device_event (.mouseMotion dx1 dy1)).1.process_device_event
      (.mouseMotion dx2 dy2)).1 = (s.process_device_event (.mouseMotion dx2 dy2)).1 := rfl
  refine ⟨rfl, by rw [key], ?_⟩
  rw [key]
  simp only [CameraController.process_device_event, CameraController.update_camera]

/-- C9: with no pending pointer delta, each held movement flag adds its axis
vector times plus-or-minus move_speed to the position and the contributions
sum; in particular holding forward and strafe-up moves the camera by
front*move_speed + up*move_speed. -/
theorem c9_additive_movement (s : CameraController) (c : Camera) (h : s.cursor_move = none) :
    (s.update_camera c).2.position =
      ((c.position.add
          (c.front.smul ((flagInd s.is_forward_pressed - flagInd s.is_backward_pressed) *
            s.move_speed))).add
        (c.right.smul ((flagInd s.is_right_pressed - flagInd s.is_left_pressed) *
          s.move_speed))).add
        (c.up.smul ((flagInd s.is_up_pressed - flagInd s.is_down_pressed) * s.move_speed)) ∧
    (s.is_forward_pressed = true → s.is_up_pressed = true → s.is_backward_pressed = false →
      s.is_right_pressed = false → s.is_left_pressed = false → s.is_down_pressed = false →
      (s.update_camera c).2.position =
        c.position.add ((c.front.smul s.move_speed).add (c.up.smul s.move_speed))) := by
  obtain ⟨ms, ls, bf, bb, bl, br, bd, bu, cm⟩ := s
  have hcm : cm = none := h
  subst hcm
  constructor
  · cases bf <;> cases bb <;> cases bl <;> cases br <;> cases bd <;> cases bu <;>
      simp [CameraController.update_camera, Vec3.add, Vec3.smul, flagInd]
  · intro h1 h2 h3 h4 h5 h6
    subst h1 h2 h3 h4 h5 h6
    simp [CameraController.update_camera, Vec3.add, Vec3.smul]
    refine ⟨by ring, by ring, by ring⟩

/-- Witness for C9 at a concrete controller and camera. -/
theorem c9_additive_movement_witness :
    ((CameraController.update_camera
        (CameraController.mk 2 1 true false false false false true none)
        (Camera.mk ⟨0, 0, 0⟩ 1 45 (1/1000) 10000 ⟨0, 1, 0⟩ ⟨0, 0, 1⟩ ⟨1, 0, 0⟩ 0 0)).2).position =
      (((Vec3.mk 0 0 0).add
          ((Vec3.mk 0 0 1).smul ((flagInd true - flagInd false) * 2))).add
        ((Vec3.mk 1 0 0).smul ((flagInd false - flagInd false) * 2))).add
        ((Vec3.mk 0 1 0).smul ((flagInd true - flagInd false) * 2)) :=
  (c9_additive_movement (CameraController.mk 2 1 true false false false false true none)
    (Camera.mk ⟨0, 0, 0⟩ 1 45 (1/1000) 10000 ⟨0, 1, 0⟩ ⟨0, 0, 1⟩ ⟨1, 0, 0⟩ 0 0) rfl).1

/-- C10: update_camera changes only the camera position and, when a pointer
delta is pending, the pitch/yaw and derived vectors; the projection parameters,
the controller's speeds and all six key flags are untouched, and with no
pending delta the orientation state is fully unchanged. -/
theorem c10_update_camera_frame (s : CameraController) (c : Camera) :
    (s.update_camera c).2.aspect_ratio = c.aspect_ratio ∧
    (s.update_camera c).2.fov_y = c.fov_y ∧
    (s.update_camera c).2.z_near = c.z_near ∧
    (s.update_camera c).2.z_far = c.z_far ∧
    (s.update_camera c).1.move_speed = s.move_speed ∧
    (s.update_camera c).1.look_speed = s.look_speed ∧
    (s.update_camera c).1.is_forward_pressed = s.is_forward_pressed ∧
    (s.update_camera c).1.is_backward_pressed = s.is_backward_pressed ∧
    (s.update_camera c).1.is_left_pressed = s.is_left_pressed ∧
    (s.update_camera c).1.is_right_pressed = s.is_right_pressed ∧
    (s.update_camera c).1.is_down_pressed = s.is_down_pressed ∧
    (s.update_camera c).1.is_up_pressed = s.is_up_pressed ∧
    (s.cursor_move = none →
      (s.update_camera c).2.pitch = c.pitch ∧ (s.update_camera c).2.yaw = c.yaw ∧
      (s.update_camera c).2.front = c.front ∧ (s.update_camera c).2.right = c.right ∧
      (s.update_camera c).2.up = c.up ∧ (s.update_camera c).1 = s) := by
  obtain ⟨ms, ls, bf, bb, bl, br, bd, bu, cm⟩ := s
  obtain ⟨pos, ar, fy, zn, zf, vup, vfront, vright, p, yw⟩ := c
  cases cm <;>
    cases bf <;> cases bb <;> cases bl <;> cases br <;> cases bd <;> cases bu <;>
    simp [CameraController.update_camera, increment_pitch_aspect, increment_pitch_fov,
      increment_pitch_z_near, increment_pitch_z_far, increment_yaw_aspect, increment_yaw_fov,
      increment_yaw_z_near, increment_yaw_z_far]

/-- C7: the per-triangle contribution is computed exactly as
r = 1 / (d1.u*d2.v - d1.v*d2.u) with no epsilon or zero-determinant guard,
tangent = (e1*d2.v - e2*d1.v) * r, and bitangent = (e2*d2.u - e1*d2.u) * -r,
the bitangent reusing the d2.u term in both products: the source computation
coincides with the claim's formula on the edge vectors and UV deltas. -/
theorem c7_contribution_formula (pos0 pos1 pos2 : Vec3F) (uv0 uv1 uv2 : Vec2F) :
    triContribution pos0 pos1 pos2 uv0 uv1 uv2 =
      specTangentFormula (pos1.sub pos0) (pos2.sub pos0) (uv1.sub uv0) (uv2.sub uv0) := rfl

/-! ## C4: error propagation in load_model -/

lemma loadMaterials_error_of_firstTexErr (fetch : AssetPath → Except String String)
    (file_name : AssetPath) :
    ∀ (mats : List MtlMaterial) (e : String),
      firstTexErr fetch file_name mats = some e →
      loadMaterials fetch file_name mats = .error e := by
  intro mats
  induction mats with
  | nil => intro e h; simp [firstTexErr] at h
  | cons m rest ih =>
    intro e h
    unfold firstTexErr at h
    unfold loadMaterials
    rcases hd : fetch (parentJoin file_name m.diffuse_texture) with ed | dd
    · rw [hd] at h
      injection h with h
      subst h
      simp [load_texture, Except.map, hd]
    · rw [hd] at h
      rcases hn : fetch (parentJoin file_name m.normal_texture) with en | nd
      · rw [hn] at h
        injection h with h
        subst h
        simp [load_texture, Except.map, hd, hn]
      · rw [hn] at h
        simp [load_texture, Except.map, hd, hn, ih e h]

/-- C4 (amended): with the OBJ text fetched and parsed, a failing companion
material file fetch makes load_model panic (the callback unwraps the fetch
result, resources.rs line 101) rather than return an error value; when all
companion fetches succeed, the first failing diffuse/normal texture fetch is
returned to the caller as the load's error value, so no partial Model is ever
produced. -/
theorem c4_fetch_failure_propagation (fetch : AssetPath → Except String String)
    (parse : String → Except String ParsedObj) (file_name : AssetPath)
    (obj_text : String) (parsed : ParsedObj)
    (h1 : fetch file_name = .ok obj_text) (h2 : parse obj_text = .ok parsed) :
    (parsed.mtl_requests.any (fun p => fetchFailed (fetch (parentJoin file_name p))) = true →
      load_model fetch parse file_name = .panicked) ∧
    (parsed.mtl_requests.any (fun p => fetchFailed (fetch (parentJoin file_name p))) = false →
      ∀ (mats : List MtlMaterial) (e : String), parsed.materials = .ok mats →
        firstTexErr fetch file_name mats = some e →
        load_model fetch parse file_name = .err e) := by
  constructor
  · intro hany
    simp [load_model, h1, h2, hany]
  · intro hany mats e hmats herr
    simp [load_model, h1, h2, hany, hmats,
      loadMaterials_error_of_firstTexErr fetch file_name mats e herr]

/-- Witness for C4's amended theorem: a concrete asset whose diffuse texture
fetch fails makes the whole load return that fetch error. -/
theorem c4_fetch_failure_propagation_witness :
    load_model cexFetch witParse ["cube.obj"] = LoadOutcome.err "fetch failed" :=
  (c4_fetch_failure_propagation cexFetch witParse ["cube.obj"] "obj text"
      { mtl_requests := []
        materials := .ok [{ name := "mat", diffuse_texture := "d.png",
                            normal_texture := "n.png" }]
        models := [] }
      rfl rfl).2 rfl
    [{ name := "mat", diffuse_texture := "d.png", normal_texture := "n.png" }]
    "fetch failed" rfl rfl

/-- Counterexample to C4 as stated: a fetch failure of the companion material
file makes load_model panic (the callback's unwrap), not return the failure as
an error value. -/
theorem c4_counterexample_mtl_unwrap :
    load_model cexFetch cexParse ["cube.obj"] = LoadOutcome.panicked ∧
    LoadOutcome.panicked ≠ LoadOutcome.err (α := Model) "fetch failed" := by
  constructor
  · rfl
  · intro hcon
    exact LoadOutcome.noConfusion hcon

/-! ## C2/C6: list bookkeeping for the accumulation and division loops -/

lemma getD_set_self_eq {α : Type} (l : List α) (i : ℕ) (a d : α) (h : i < l.length) :
    (l.set i a).getD i d = a := by
  induction l generalizing i with
  | nil => simp at h
  | cons x xs ih =>
    cases i with
    | zero => rfl
    | succ n => exact ih n (Nat.lt_of_succ_lt_succ h)

lemma getD_set_of_ne {α : Type} (l : List α) (i j : ℕ) (a d : α) (h : i ≠ j) :
    (l.set i a).getD j d = l.getD j d := by
  induction l generalizing i j with
  | nil => rfl
  | cons x xs ih =>
    cases i with
    | zero =>
      cases j with
      | zero => exact absurd rfl h
      | succ m => rfl
    | succ n =>
      cases j with
      | zero => rfl
      | succ m => exact ih n m (fun hh => h (by rw [hh]))

lemma lt_length_of_get?_some {α : Type} {l : List α} {i : ℕ} {v : α}
    (h : l.get? i = some v) : i < l.length := by
  by_contra hge
  rw [List.get?_eq_none.2 (Nat.le_of_not_lt hge)] at h
  exact Option.noConfusion h

lemma getD_of_get?_some {α : Type} {l : List α} {i : ℕ} {v : α} (d : α)
    (h : l.get? i = some v) : l.getD i d = v := by
  rw [List.getD_eq_getElem?_getD, ← List.get?_eq_getElem?, h]
  rfl

lemma length_le_of_get?_none {α : Type} {l : List α} {i : ℕ}
    (h : l.get? i = none) : l.length ≤ i := List.get?_eq_none.1 h

lemma addTangentAt_spec (verts : List ModelVertex) (i : ℕ) (t : Vec3F) (k : ℕ) :
    (addTangentAt verts i t).length = verts.length ∧
    ((addTangentAt verts i t).getD k default).position = (verts.getD k default).position ∧
    ((addTangentAt verts i t).getD k default).tex_coords = (verts.getD k default).tex_coords ∧
    bitangentAt (addTangentAt verts i t) k = bitangentAt verts k ∧
    tangentAt (addTangentAt verts i t) k =
      (if i = k ∧ k < verts.length then t.add (tangentAt verts k) else tangentAt verts k) := by
  unfold addTangentAt tangentAt bitangentAt
  cases h : verts.get? i with
  | none =>
    refine ⟨rfl, rfl, rfl, rfl, ?_⟩
    rw [if_neg]
    rintro ⟨rfl, hk⟩
    exact absurd hk (Nat.not_lt.2 (length_le_of_get?_none h))
  | some v =>
    have hlen : i < verts.length := lt_length_of_get?_some h
    have hv : verts.getD i default = v := getD_of_get?_some default h
    refine ⟨by simp, ?_, ?_, ?_, ?_⟩ <;> by_cases hik : i = k
    · subst hik; rw [getD_set_self_eq _ _ _ _ hlen, hv]
    · rw [getD_set_of_ne _ _ _ _ _ hik]
    · subst hik; rw [getD_set_self_eq _ _ _ _ hlen, hv]
    · rw [getD_set_of_ne _ _ _ _ _ hik]
    · subst hik; rw [getD_set_self_eq _ _ _ _ hlen, hv]
    · rw [getD_set_of_ne _ _ _ _ _ hik]
    · subst hik
      rw [getD_set_self_eq _ _ _ _ hlen, hv, if_pos ⟨rfl, hlen⟩]
    · rw [getD_set_of_ne _ _ _ _ _ hik, if_neg (fun hc => hik hc.1)]

lemma addBitangentAt_spec (verts : List ModelVertex) (i : ℕ) (b : Vec3F) (k : ℕ) :
    (addBitangentAt verts i b).length = verts.length ∧
    ((addBitangentAt verts i b).getD k default).position = (verts.getD k default).position ∧
    ((addBitangentAt verts i b).getD k default).tex_coords = (verts.getD k default).tex_coords ∧
    tangentAt (addBitangentAt verts i b) k = tangentAt verts k ∧
    bitangentAt (addBitangentAt verts i b) k =
      (if i = k ∧ k < verts.length then b.add (bitangentAt verts k) else bitangentAt verts k) := by
  unfold addBitangentAt tangentAt bitangentAt
  cases h : verts.get? i with
  | none =>
    refine ⟨rfl, rfl, rfl, rfl, ?_⟩
    rw [if_neg]
    rintro ⟨rfl, hk⟩
    exact absurd hk (Nat.not_lt.2 (length_le_of_get?_none h))
  | some v =>
    have hlen : i < verts.length := lt_length_of_get?_some h
    have hv : verts.getD i default = v := getD_of_get?_some default h
    refine ⟨by simp, ?_, ?_, ?_, ?_⟩ <;> by_cases hik : i = k
    · subst hik; rw [getD_set_self_eq _ _ _ _ hlen, hv]
    · rw [getD_set_of_ne _ _ _ _ _ hik]
    · subst hik; rw [getD_set_self_eq _ _ _ _ hlen, hv]
    · rw [getD_set_of_ne _ _ _ _ _ hik]
    · subst hik; rw [getD_set_self_eq _ _ _ _ hlen, hv]
    · rw [getD_set_of_ne _ _ _ _ _ hik]
    · subst hik
      rw [getD_set_self_eq _ _ _ _ hlen, hv, if_pos ⟨rfl, hlen⟩]
    · rw [getD_set_of_ne _ _ _ _ _ hik, if_neg (fun hc => hik hc.1)]

lemma bumpCount_spec (counts : List ℕ) (i k : ℕ) :
    (bumpCount counts i).length = counts.length ∧
    (k < counts.length →
      (bumpCount counts i).getD k 0 = counts.getD k 0 + (if i = k then 1 else 0)) := by
  unfold bumpCount
  refine ⟨by simp, fun hk => ?_⟩
  by_cases hik : i = k
  · subst hik
    rw [getD_set_self_eq _ _ _ _ hk, if_pos rfl]
  · rw [getD_set_of_ne _ _ _ _ _ hik, if_neg hik]
    omega

lemma addTangentAt_length (verts : List ModelVertex) (i : ℕ) (t : Vec3F) :
    (addTangentAt verts i t).length = verts.length := (addTangentAt_spec verts i t 0).1

lemma addBitangentAt_length (verts : List ModelVertex) (i : ℕ) (b : Vec3F) :
    (addBitangentAt verts i b).length = verts.length := (addBitangentAt_spec verts i b 0).1

lemma bumpCount_length (counts : List ℕ) (i : ℕ) :
    (bumpCount counts i).length = counts.length := (bumpCount_spec counts i 0).1

lemma contribOf_congr (verts1 verts2 : List ModelVertex) (t : ℕ × ℕ × ℕ)
    (hp : ∀ k, (verts2.getD k default).position = (verts1.getD k default).position)
    (ht : ∀ k, (verts2.getD k default).tex_coords = (verts1.getD k default).tex_coords) :
    contribOf verts2 t = contribOf verts1 t := by
  simp only [contribOf]
  rw [hp t.1, hp t.2.1, hp t.2.2, ht t.1, ht t.2.1, ht t.2.2]

lemma processTriangle_spec (verts : List ModelVertex) (counts : List ℕ) (tri : ℕ × ℕ × ℕ) :
    (processTriangle (verts, counts) tri).1.length = verts.length ∧
    (processTriangle (verts, counts) tri).2.length = counts.length ∧
    (∀ k, ((processTriangle (verts, counts) tri).1.getD k default).position =
      (verts.getD k default).position) ∧
    (∀ k, ((processTriangle (verts, counts) tri).1.getD k default).tex_coords =
      (verts.getD k default).tex_coords) ∧
    (∀ i, i < verts.length →
      tangentAt (processTriangle (verts, counts) tri).1 i =
        (List.replicate (occInTri i tri) (contribOf verts tri).1).foldl
          (fun a c => c.add a) (tangentAt verts i) ∧
      bitangentAt (processTriangle (verts, counts) tri).1 i =
        (List.replicate (occInTri i tri) (contribOf verts tri).2).foldl
          (fun a c => c.add a) (bitangentAt verts i)) ∧
    (∀ i, i < counts.length →
      (processTriangle (verts, counts) tri).2.getD i 0 = counts.getD i 0 + occInTri i tri) := by
  obtain ⟨i0, i1, i2⟩ := tri
  simp only [processTriangle]
  refine ⟨?_, ?_, ?_, ?_, ?_, ?_⟩
  · rw [addBitangentAt_length, addBitangentAt_length, addBitangentAt_length,
      addTangentAt_length, addTangentAt_length, addTangentAt_length]
  · rw [bumpCount_length, bumpCount_length, bumpCount_length]
  · intro k
    rw [(addBitangentAt_spec _ _ _ k).2.1, (addBitangentAt_spec _ _ _ k).2.1,
      (addBitangentAt_spec _ _ _ k).2.1, (addTangentAt_spec _ _ _ k).2.1,
      (addTangentAt_spec _ _ _ k).2.1, (addTangentAt_spec _ _ _ k).2.1]
  · intro k
    rw [(addBitangentAt_spec _ _ _ k).2.2.1, (addBitangentAt_spec _ _ _ k).2.2.1,
      (addBitangentAt_spec _ _ _ k).2.2.1, (addTangentAt_spec _ _ _ k).2.2.1,
      (addTangentAt_spec _ _ _ k).2.2.1, (addTangentAt_spec _ _ _ k).2.2.1]
  · intro i hi
    constructor
    · rw [(addBitangentAt_spec _ _ _ i).2.2.2.1, (addBitangentAt_spec _ _ _ i).2.2.2.1,
        (addBitangentAt_spec _ _ _ i).2.2.2.1, (addTangentAt_spec _ _ _ i).2.2.2.2,
        (addTangentAt_spec _ _ _ i).2.2.2.2, (addTangentAt_spec _ _ _ i).2.2.2.2,
        addTangentAt_length, addTangentAt_length]
      by_cases h0 : i0 = i <;> by_cases h1 : i1 = i <;> by_cases h2 : i2 = i <;>
        simp [occInTri, h0, h1, h2, hi]
    · rw [(addBitangentAt_spec _ _ _ i).2.2.2.2, (addBitangentAt_spec _ _ _ i).2.2.2.2,
        (addBitangentAt_spec _ _ _ i).2.2.2.2, (addTangentAt_spec _ _ _ i).2.2.2.1,
        (addTangentAt_spec _ _ _ i).2.2.2.1, (addTangentAt_spec _ _ _ i).2.2.2.1,
        addBitangentAt_length, addBitangentAt_length, addTangentAt_length,
        addTangentAt_length, addTangentAt_length]
      by_cases h0 : i0 = i <;> by_cases h1 : i1 = i <;> by_cases h2 : i2 = i <;>
        simp [occInTri, h0, h1, h2, hi]
  · intro i hi
    rw [(bumpCount_spec _ _ i).2 (by rw [bumpCount_length, bumpCount_length]; exact hi),
      (bumpCount_spec _ _ i).2 (by rw [bumpCount_length]; exact hi),
      (bumpCount_spec _ _ i).2 hi]
    by_cases h0 : i0 = i <;> by_cases h1 : i1 = i <;> by_cases h2 : i2 = i <;>
      simp [occInTri, h0, h1, h2]

lemma tContribs_congr (verts1 verts2 : List ModelVertex) (tris : List (ℕ × ℕ × ℕ)) (i : ℕ)
    (hp : ∀ k, (verts2.getD k default).position = (verts1.getD k default).position)
    (ht : ∀ k, (verts2.getD k default).tex_coords = (verts1.getD k default).tex_coords) :
    tContribs verts2 tris i = tContribs verts1 tris i ∧
    bContribs verts2 tris i = bContribs verts1 tris i := by
  unfold tContribs bContribs
  constructor <;>
    · congr 1
      exact List.map_congr_left fun t _ => by rw [contribOf_congr verts1 verts2 t hp ht]

lemma foldl_processTriangle_spec (tris : List (ℕ × ℕ × ℕ)) :
    ∀ (verts : List ModelVertex) (counts : List ℕ),
    (tris.foldl processTriangle (verts, counts)).1.length = verts.length ∧
    (tris.foldl processTriangle (verts, counts)).2.length = counts.length ∧
    (∀ k, ((tris.foldl processTriangle (verts, counts)).1.getD k default).position =
      (verts.getD k default).position) ∧
    (∀ k, ((tris.foldl processTriangle (verts, counts)).1.getD k default).tex_coords =
      (verts.getD k default).tex_coords) ∧
    (∀ i, i < verts.length →
      tangentAt (tris.foldl processTriangle (verts, counts)).1 i =
        (tContribs verts tris i).foldl (fun a c => c.add a) (tangentAt verts i) ∧
      bitangentAt (tris.foldl processTriangle (verts, counts)).1 i =
        (bContribs verts tris i).foldl (fun a c => c.add a) (bitangentAt verts i)) ∧
    (∀ i, i < counts.length →
      (tris.foldl processTriangle (verts, counts)).2.getD i 0 =
        counts.getD i 0 + occCount tris i) := by
  induction tris with
  | nil =>
    intro verts counts
    refine ⟨rfl, rfl, fun k => rfl, fun k => rfl, fun i hi => ⟨?_, ?_⟩, fun i hi => ?_⟩ <;>
      simp [tContribs, bContribs, occCount]
  | cons t ts ih =>
    intro verts counts
    have hfold : (t :: ts).foldl processTriangle (verts, counts) =
        ts.foldl processTriangle ((processTriangle (verts, counts) t).1,
          (processTriangle (verts, counts) t).2) := by
      rw [List.foldl_cons]
    have hps := processTriangle_spec verts counts t
    have hih := ih (processTriangle (verts, counts) t).1 (processTriangle (verts, counts) t).2
    rw [hfold]
    have hcongr := fun i => tContribs_congr verts (processTriangle (verts, counts) t).1 ts i
      (fun k => hps.2.2.1 k) (fun k => hps.2.2.2.1 k)
    refine ⟨?_, ?_, ?_, ?_, ?_, ?_⟩
    · rw [hih.1, hps.1]
    · rw [hih.2.1, hps.2.1]
    · intro k
      rw [hih.2.2.1 k, hps.2.2.1 k]
    · intro k
      rw [hih.2.2.2.1 k, hps.2.2.2.1 k]
    · intro i hi
      have hi1 : i < (processTriangle (verts, counts) t).1.length := by rw [hps.1]; exact hi
      constructor
      · rw [(hih.2.2.2.2.1 i hi1).1, (hcongr i).1, (hps.2.2.2.2.1 i hi).1]
        have hsplit : tContribs verts (t :: ts) i =
            List.replicate (occInTri i t) (contribOf verts t).1 ++ tContribs verts ts i := by
          simp [tContribs]
        rw [hsplit, List.foldl_append]
      · rw [(hih.2.2.2.2.1 i hi1).2, (hcongr i).2, (hps.2.2.2.2.1 i hi).2]
        have hsplit : bContribs verts (t :: ts) i =
            List.replicate (occInTri i t) (contribOf verts t).2 ++ bContribs verts ts i := by
          simp [bContribs]
        rw [hsplit, List.foldl_append]
    · intro i hi
      have hi2 : i < (processTriangle (verts, counts) t).2.length := by rw [hps.2.1]; exact hi
      rw [hih.2.2.2.2.2 i hi2, hps.2.2.2.2.2 i hi]
      have hocc : occCount (t :: ts) i = occInTri i t + occCount ts i := by
        simp [occCount]
      rw [hocc]
      omega

lemma get?_eq_some_getD {α : Type} (l : List α) (k : ℕ) (d : α) (h : k < l.length) :
    l.get? k = some (l.getD k d) := by
  rw [List.get?_eq_getElem?, List.getElem?_eq_getElem h, List.getD_eq_getElem l d h]

lemma divideStepF_length (vs : List ModelVertex) (p : ℕ × ℕ) :
    (divideStepF vs p).length = vs.length := by
  unfold divideStepF
  cases h : vs.get? p.1 <;> simp

lemma foldl_divideStepF_getD :
    ∀ (counts : List ℕ) (k : ℕ) (verts : List ModelVertex) (i : ℕ), i < verts.length →
    ((List.enumFrom k counts).foldl divideStepF verts).getD i default =
      (if k ≤ i ∧ i - k < counts.length then
        divideVertex (verts.getD i default) (counts.getD (i - k) 0)
      else verts.getD i default) := by
  intro counts
  induction counts with
  | nil =>
    intro k verts i hi
    simp [List.enumFrom]
  | cons n ns ih =>
    intro k verts i hi
    have hstep : List.enumFrom k (n :: ns) = (k, n) :: List.enumFrom (k + 1) ns := rfl
    rw [hstep, List.foldl_cons]
    have hlen1 : (divideStepF verts (k, n)).length = verts.length := divideStepF_length verts (k, n)
    rw [ih (k + 1) (divideStepF verts (k, n)) i (by rw [hlen1]; exact hi)]
    by_cases hcase : k + 1 ≤ i ∧ i - (k + 1) < ns.length
    · rw [if_pos hcase, if_pos ⟨by omega, by simp; omega⟩]
      have hne : k ≠ i := by omega
      have hskip : (divideStepF verts (k, n)).getD i default = verts.getD i default := by
        unfold divideStepF
        cases hg : verts.get? k with
        | none => rfl
        | some v => exact getD_set_of_ne _ _ _ _ _ hne
      rw [hskip]
      have hidx : i - k = (i - (k + 1)) + 1 := by omega
      rw [hidx]
      rfl
    · rw [if_neg hcase]
      by_cases hik : k = i
      · subst hik
        have hg : verts.get? k = some (verts.getD k default) := get?_eq_some_getD _ _ _ hi
        have hset : (divideStepF verts (k, n)).getD k default =
            divideVertex (verts.getD k default) n := by
          unfold divideStepF
          rw [hg]
          exact getD_set_self_eq _ _ _ _ hi
        rw [hset, if_pos ⟨le_refl k, by simp⟩]
        have hzero : k - k = 0 := by omega
        rw [hzero]
        rfl
      · have hskip : (divideStepF verts (k, n)).getD i default = verts.getD i default := by
          unfold divideStepF
          cases hg : verts.get? k with
          | none => rfl
          | some v => exact getD_set_of_ne _ _ _ _ _ hik
        rw [hskip, if_neg (by simp; omega)]

lemma divideStep_getD (verts : List ModelVertex) (counts : List ℕ) (i : ℕ)
    (hi : i < verts.length) (hic : i < counts.length) :
    (divideStep verts counts).getD i default =
      divideVertex (verts.getD i default) (counts.getD i 0) := by
  unfold divideStep
  have henum : counts.enum = List.enumFrom 0 counts := rfl
  rw [henum, foldl_divideStepF_getD counts 0 verts i hi, if_pos ⟨Nat.zero_le i, by omega⟩,
    Nat.sub_zero]

lemma getD_replicate_zero (n i : ℕ) : (List.replicate n (0 : ℕ)).getD i 0 = 0 := by
  induction n generalizing i with
  | zero => rfl
  | succ m ihm =>
    cases i with
    | zero => rfl
    | succ j => exact ihm j

lemma tangentAt_def (l : List ModelVertex) (i : ℕ) :
    tangentAt l i = (l.getD i default).tangent := rfl

lemma bitangentAt_def (l : List ModelVertex) (i : ℕ) :
    bitangentAt l i = (l.getD i default).bitangent := rfl

lemma mkVertices_tangent_zero (positions texcoords normals : List F) (i : ℕ)
    (hi : i < (mkVertices positions texcoords normals).length) :
    tangentAt (mkVertices positions texcoords normals) i = Vec3F.zero ∧
    bitangentAt (mkVertices positions texcoords normals) i = Vec3F.zero := by
  constructor
  · rw [tangentAt_def, List.getD_eq_getElem _ _ hi]
    simp [mkVertices]
  · rw [bitangentAt_def, List.getD_eq_getElem _ _ hi]
    simp [mkVertices]

lemma computeTangents_spec (verts : List ModelVertex) (tris : List (ℕ × ℕ × ℕ)) (i : ℕ)
    (hi : i < verts.length) :
    tangentAt (computeTangents verts tris) i =
      Vec3F.smul ((tContribs verts tris i).foldl (fun a c => c.add a) (tangentAt verts i))
        (F.div (.fin 1) (.fin (occCount tris i))) ∧
    bitangentAt (computeTangents verts tris) i =
      Vec3F.smul ((bContribs verts tris i).foldl (fun a c => c.add a) (bitangentAt verts i))
        (F.div (.fin 1) (.fin (occCount tris i))) := by
  have hfold := foldl_processTriangle_spec tris verts (List.replicate verts.length 0)
  have hicounts : i < (List.replicate verts.length (0 : ℕ)).length := by
    rw [List.length_replicate]; exact hi
  have hcount : (tris.foldl processTriangle (verts, List.replicate verts.length 0)).2.getD i 0 =
      occCount tris i := by
    rw [hfold.2.2.2.2.2 i hicounts, getD_replicate_zero]
    omega
  have hi1 : i < (tris.foldl processTriangle (verts, List.replicate verts.length 0)).1.length := by
    rw [hfold.1]; exact hi
  have hi2 : i < (tris.foldl processTriangle (verts, List.replicate verts.length 0)).2.length := by
    rw [hfold.2.1]; exact hicounts
  have hdiv := divideStep_getD _ _ i hi1 hi2
  have hct : computeTangents verts tris =
      divideStep (tris.foldl processTriangle (verts, List.replicate verts.length 0)).1
        (tris.foldl processTriangle (verts, List.replicate verts.length 0)).2 := rfl
  constructor
  · rw [tangentAt_def, hct, hdiv]
    simp only [divideVertex]
    rw [← tangentAt_def, hcount, (hfold.2.2.2.2.1 i hi).1]
  · rw [bitangentAt_def, hct, hdiv]
    simp only [divideVertex]
    rw [← bitangentAt_def, hcount, (hfold.2.2.2.2.1 i hi).2]

lemma contribs_nil_of_occ_zero (verts : List ModelVertex) (tris : List (ℕ × ℕ × ℕ)) (i : ℕ)
    (h0 : occCount tris i = 0) :
    tContribs verts tris i = [] ∧ bContribs verts tris i = [] := by
  induction tris with
  | nil => exact ⟨rfl, rfl⟩
  | cons t ts ih =>
    have hsplit : occCount (t :: ts) i = occInTri i t + occCount ts i := by simp [occCount]
    have hz : occInTri i t = 0 ∧ occCount ts i = 0 := by omega
    obtain ⟨he1, he2⟩ := ih hz.2
    constructor
    · show (List.map _ (t :: ts)).flatten = []
      rw [List.map_cons, List.flatten_cons, hz.1]
      rw [show List.replicate 0 (contribOf verts t).1 = [] from rfl, List.nil_append]
      exact he1
    · show (List.map _ (t :: ts)).flatten = []
      rw [List.map_cons, List.flatten_cons, hz.1]
      rw [show List.replicate 0 (contribOf verts t).2 = [] from rfl, List.nil_append]
      exact he2

lemma F_mul_one_div_nat (x : F) (n : ℕ) (h : 1 ≤ n) :
    x.mul (F.div (.fin 1) (.fin n)) = x.div (.fin n) := by
  have hn0 : ((n : ℚ)) ≠ 0 := by
    have : (1 : ℚ) ≤ (n : ℚ) := by exact_mod_cast h
    linarith
  have hnpos : (0 : ℚ) < (1 / (n : ℚ)) := by
    have : (1 : ℚ) ≤ (n : ℚ) := by exact_mod_cast h
    positivity
  have hnn : (0 : ℚ) ≤ (n : ℚ) := by positivity
  have hdiv : F.div (.fin 1) (.fin (n : ℚ)) = .fin (1 / (n : ℚ)) := by
    simp [F.div, hn0]
  rw [hdiv]
  cases x with
  | fin a =>
    show F.fin (a * (1 / (n : ℚ))) =
      if (n : ℚ) = 0 then (if a = 0 then F.nan else if 0 < a then F.inf else F.ninf)
      else F.fin (a / (n : ℚ))
    rw [if_neg hn0, mul_one_div]
  | inf =>
    show (if (0 : ℚ) < 1 / (n : ℚ) then F.inf
        else if (1 / (n : ℚ)) < 0 then F.ninf else F.nan) =
      if (0 : ℚ) ≤ (n : ℚ) then F.inf else F.ninf
    rw [if_pos hnpos, if_pos hnn]
  | ninf =>
    show (if (0 : ℚ) < 1 / (n : ℚ) then F.ninf
        else if (1 / (n : ℚ)) < 0 then F.inf else F.nan) =
      if (0 : ℚ) ≤ (n : ℚ) then F.ninf else F.inf
    rw [if_pos hnpos, if_pos hnn]
  | nan => rfl

lemma smul_one_div_eq_divNat (v : Vec3F) (n : ℕ) (h : 1 ≤ n) :
    v.smul (F.div (.fin 1) (.fin n)) = v.divNat n := by
  cases v
  simp [Vec3F.smul, Vec3F.divNat, F_mul_one_div_nat _ _ h]

/-- C2 (amended): a vertex referenced by zero triangles ends with tangent and
bitangent equal to (NaN, NaN, NaN), not (0, 0, 0): the final division step
divides every vertex unconditionally, and for a zero triangle count the
denominator 1/0 is infinite, so the zero accumulator times it is NaN in every
component. -/
theorem c2_isolated_vertex_nan (positions texcoords normals : List F)
    (tris : List (ℕ × ℕ × ℕ)) (i : ℕ)
    (hi : i < (mkVertices positions texcoords normals).length)
    (h0 : occCount tris i = 0) :
    tangentAt (computeTangents (mkVertices positions texcoords normals) tris) i =
      ⟨F.nan, F.nan, F.nan⟩ ∧
    bitangentAt (computeTangents (mkVertices positions texcoords normals) tris) i =
      ⟨F.nan, F.nan, F.nan⟩ := by
  obtain ⟨hz1, hz2⟩ := mkVertices_tangent_zero positions texcoords normals i hi
  obtain ⟨hT, hB⟩ := computeTangents_spec (mkVertices positions texcoords normals) tris i hi
  obtain ⟨he1, he2⟩ := contribs_nil_of_occ_zero (mkVertices positions texcoords normals) tris i h0
  constructor
  · rw [hT, he1, h0, List.foldl_nil, hz1]
    decide
  · rw [hB, he2, h0, List.foldl_nil, hz2]
    decide

/-- Witness for C2's amended theorem: a two-vertex mesh whose single triangle
references only vertex 0 leaves vertex 1 with NaN tangent and bitangent. -/
theorem c2_isolated_vertex_nan_witness :
    tangentAt (computeTangents (mkVertices (List.replicate 6 (F.fin 0)) [] []) [(0, 0, 0)]) 1 =
      ⟨F.nan, F.nan, F.nan⟩ ∧
    bitangentAt (computeTangents (mkVertices (List.replicate 6 (F.fin 0)) [] []) [(0, 0, 0)]) 1 =
      ⟨F.nan, F.nan, F.nan⟩ :=
  c2_isolated_vertex_nan (List.replicate 6 (F.fin 0)) [] [] [(0, 0, 0)] 1
    (by decide) (by decide)

/-- Counterexample to C2 as stated: in a one-vertex mesh with no triangles the
vertex is referenced by zero triangles, yet after the final division step its
tangent is (NaN, NaN, NaN), not (0, 0, 0). -/
theorem c2_counterexample_zero_count :
    tangentAt (computeTangents (mkVertices [F.fin 0, F.fin 0, F.fin 0] [] []) []) 0 =
      ⟨F.nan, F.nan, F.nan⟩ ∧
    tangentAt (computeTangents (mkVertices [F.fin 0, F.fin 0, F.fin 0] [] []) []) 0 ≠
      Vec3F.zero ∧
    bitangentAt (computeTangents (mkVertices [F.fin 0, F.fin 0, F.fin 0] [] []) []) 0 ≠
      Vec3F.zero := by
  decide

/-- C6: for a vertex referenced by N ≥ 1 triangle corners, the final tangent
and bitangent equal the sum of the per-triangle contributions divided by N,
i.e. the arithmetic mean of the N contributions (in exact arithmetic). -/
theorem c6_tangent_mean (positions texcoords normals : List F) (tris : List (ℕ × ℕ × ℕ))
    (i : ℕ) (hi : i < (mkVertices positions texcoords normals).length)
    (hN : 1 ≤ occCount tris i) :
    tangentAt (computeTangents (mkVertices positions texcoords normals) tris) i =
      Vec3F.divNat (sumVec (tContribs (mkVertices positions texcoords normals) tris i))
        (occCount tris i) ∧
    bitangentAt (computeTangents (mkVertices positions texcoords normals) tris) i =
      Vec3F.divNat (sumVec (bContribs (mkVertices positions texcoords normals) tris i))
        (occCount tris i) := by
  obtain ⟨hz1, hz2⟩ := mkVertices_tangent_zero positions texcoords normals i hi
  obtain ⟨hT, hB⟩ := computeTangents_spec (mkVertices positions texcoords normals) tris i hi
  constructor
  · rw [hT, hz1, smul_one_div_eq_divNat _ _ hN]
    rfl
  · rw [hB, hz2, smul_one_div_eq_divNat _ _ hN]
    rfl

/-- Witness for C6 at a concrete three-vertex, one-triangle mesh. -/
theorem c6_tangent_mean_witness :
    tangentAt (computeTangents (mkVertices (List.replicate 9 (F.fin 0)) [] []) [(0, 1, 2)]) 0 =
      Vec3F.divNat
        (sumVec (tContribs (mkVertices (List.replicate 9 (F.fin 0)) [] []) [(0, 1, 2)] 0))
        (occCount [(0, 1, 2)] 0) ∧
    bitangentAt (computeTangents (mkVertices (List.replicate 9 (F.fin 0)) [] []) [(0, 1, 2)]) 0 =
      Vec3F.divNat
        (sumVec (bContribs (mkVertices (List.replicate 9 (F.fin 0)) [] []) [(0, 1, 2)] 0))
        (occCount [(0, 1, 2)] 0) :=
  c6_tangent_mean (List.replicate 9 (F.fin 0)) [] [] [(0, 1, 2)] 0 (by decide) (by decide)
